import Mathlib

/-!
Shallow embedding of the persistence + domain layer of `hospital_mvp.py`
(Hospital Management MVP, single SQLite file, four tables).

The SQLite database is modelled as four lists of rows plus one
AUTOINCREMENT sequence counter per table (SQLite AUTOINCREMENT hands out
`seq + 1` and never reuses an id).  SQL `REAL` amounts are modelled as `ℚ`,
`TEXT` columns as `String`, the `paid INTEGER` column as `Int`.
`datetime.now().isoformat()` is nondeterministic, so every operation that
stores a timestamp takes it as an explicit `now` argument.
-/

namespace HospitalMVP

/-- Row of the `patients` table. -/
structure Patient where
  id : Nat
  first_name : String
  last_name : String
  dob : String
  phone : String
  notes : String
deriving Repr, DecidableEq

/-- Row of the `appointments` table (the status column defaults to the text `scheduled`). -/
structure Appointment where
  id : Nat
  patient_id : Nat
  doctor : String
  datetime : String
  reason : String
  status : String
deriving Repr, DecidableEq

/-- Row of the `consultations` table. -/
structure Consultation where
  id : Nat
  appointment_id : Nat
  patient_id : Nat
  doctor : String
  notes : String
  prescription : String
  created_at : String
deriving Repr, DecidableEq

/-- Row of the `invoices` table (`paid INTEGER DEFAULT 0`). -/
structure Invoice where
  id : Nat
  patient_id : Nat
  appointment_id : Nat
  amount : ℚ
  issued_at : String
  paid : Int
deriving Repr, DecidableEq

/-- The whole database file: four tables, each with its AUTOINCREMENT
sequence counter (`seq` is the largest id ever assigned in that table). -/
structure DB where
  patients : List Patient
  appointments : List Appointment
  consultations : List Consultation
  invoices : List Invoice
  patientSeq : Nat
  appointmentSeq : Nat
  consultationSeq : Nat
  invoiceSeq : Nat
deriving Repr, DecidableEq

/-- Python `init_db()` on a fresh file: four empty tables. -/
def initDB : DB :=
  { patients := [], appointments := [], consultations := [], invoices := []
    patientSeq := 0, appointmentSeq := 0, consultationSeq := 0, invoiceSeq := 0 }

/-- Python `add_patient(first,last,dob,phone,notes="")`: INSERT then return
`lastrowid`. -/
def add_patient (first last dob phone notes : String) (db : DB) : Nat × DB :=
  let pid := db.patientSeq + 1
  (pid,
   { db with
       patients := db.patients ++
         [{ id := pid, first_name := first, last_name := last, dob := dob
            phone := phone, notes := notes }]
       patientSeq := pid })

/-- Projection used by `list_patients`:
`SELECT id, first_name, last_name, dob, phone`. -/
def patientListRow (p : Patient) : Nat × String × String × String × String :=
  (p.id, p.first_name, p.last_name, p.dob, p.phone)

/-- Python `list_patients()`: `SELECT id, first_name, last_name, dob, phone FROM
patients ORDER BY id DESC`. -/
def list_patients (db : DB) : List (Nat × String × String × String × String) :=
  (List.insertionSort (fun a b : Patient => b.id ≤ a.id) db.patients).map
    patientListRow

/-- Python `get_patient(pid)`: `SELECT ... WHERE id=?` then `fetchone()` — the first
matching row, or `None`. -/
def get_patient (pid : Nat) (db : DB) :
    Option (Nat × String × String × String × String × String) :=
  (db.patients.find? (fun p => p.id == pid)).map
    (fun p => (p.id, p.first_name, p.last_name, p.dob, p.phone, p.notes))

/-- Python `add_appointment(patient_id,doctor,dt_str,reason)`: INSERT (status takes
the column default, the text `scheduled`) then return `lastrowid`. -/
def add_appointment (patient_id : Nat) (doctor dt_str reason : String)
    (db : DB) : Nat × DB :=
  let aid := db.appointmentSeq + 1
  (aid,
   { db with
       appointments := db.appointments ++
         [{ id := aid, patient_id := patient_id, doctor := doctor
            datetime := dt_str, reason := reason, status := "scheduled" }]
       appointmentSeq := aid })

/-- SQL `appointments a JOIN patients p ON a.patient_id = p.id` as the filtered
cross product, in table scan order (before ORDER BY). -/
def apptJoin (db : DB) : List (Appointment × Patient) :=
  db.appointments.flatMap (fun a =>
    (db.patients.filter (fun p => p.id == a.patient_id)).map (fun p => (a, p)))

/-- Python `list_appointments()`: the join above, `ORDER BY a.datetime DESC`
(lexicographic on the stored text), projected to
(appointment id, the concatenated patient full name, doctor, datetime, reason, status). -/
def list_appointments (db : DB) :
    List (Nat × String × String × String × String × String) :=
  (List.insertionSort
      (fun x y : Appointment × Patient => y.1.datetime ≤ x.1.datetime)
      (apptJoin db)).map
    (fun ap =>
      (ap.1.id, ap.2.first_name ++ " " ++ ap.2.last_name, ap.1.doctor,
       ap.1.datetime, ap.1.reason, ap.1.status))

/-- Python `add_consultation(appointment_id,patient_id,doctor,notes,prescription)`:
INSERT the consultation row, then
the UPDATE that sets the status of the appointment with that id to `completed`, then return the
cursor `lastrowid`, which is still the rowid of the INSERT (an UPDATE does
not produce an insert rowid). -/
def add_consultation (appointment_id patient_id : Nat)
    (doctor notes prescription now : String) (db : DB) : Nat × DB :=
  let cid := db.consultationSeq + 1
  (cid,
   { db with
       consultations := db.consultations ++
         [{ id := cid, appointment_id := appointment_id
            patient_id := patient_id, doctor := doctor, notes := notes
            prescription := prescription, created_at := now }]
       consultationSeq := cid
       appointments := db.appointments.map (fun a =>
         if a.id == appointment_id then { a with status := "completed" }
         else a) })

/-- SQL `consultations c JOIN patients p ON c.patient_id = p.id`. -/
def consJoin (db : DB) : List (Consultation × Patient) :=
  db.consultations.flatMap (fun c =>
    (db.patients.filter (fun p => p.id == c.patient_id)).map (fun p => (c, p)))

/-- Python `list_consultations()`: join, `ORDER BY c.created_at DESC`, projected to
`(c.id, patient name, c.doctor, c.created_at, c.prescription)`. -/
def list_consultations (db : DB) :
    List (Nat × String × String × String × String) :=
  (List.insertionSort
      (fun x y : Consultation × Patient => y.1.created_at ≤ x.1.created_at)
      (consJoin db)).map
    (fun cp =>
      (cp.1.id, cp.2.first_name ++ " " ++ cp.2.last_name, cp.1.doctor,
       cp.1.created_at, cp.1.prescription))

/-- Python `generate_invoice(patient_id,appointment_id,amount)`: INSERT (paid takes
the column default `0`) then return `lastrowid`. -/
def generate_invoice (patient_id appointment_id : Nat) (amount : ℚ)
    (now : String) (db : DB) : Nat × DB :=
  let iid := db.invoiceSeq + 1
  (iid,
   { db with
       invoices := db.invoices ++
         [{ id := iid, patient_id := patient_id
            appointment_id := appointment_id, amount := amount
            issued_at := now, paid := 0 }]
       invoiceSeq := iid })

/-- SQL `invoices i JOIN patients p ON i.patient_id = p.id`. -/
def invJoin (db : DB) : List (Invoice × Patient) :=
  db.invoices.flatMap (fun i =>
    (db.patients.filter (fun p => p.id == i.patient_id)).map (fun p => (i, p)))

/-- Python `list_invoices()`: join, `ORDER BY i.issued_at DESC`, projected to
`(i.id, patient name, i.amount, i.issued_at, i.paid)`. -/
def list_invoices (db : DB) : List (Nat × String × ℚ × String × Int) :=
  (List.insertionSort
      (fun x y : Invoice × Patient => y.1.issued_at ≤ x.1.issued_at)
      (invJoin db)).map
    (fun ip =>
      (ip.1.id, ip.2.first_name ++ " " ++ ip.2.last_name, ip.1.amount,
       ip.1.issued_at, ip.1.paid))

/-- Python `HospitalApp.toggle_invoice_paid` (database part): `SELECT paid FROM
invoices WHERE id=?`; `fetchone()[0]` raises on no row (modelled as `none`);
otherwise `UPDATE invoices SET paid = (0 if paid else 1) WHERE id=?`. -/
def toggle_invoice_paid (iid : Nat) (db : DB) : Option DB :=
  match db.invoices.find? (fun i => i.id == iid) with
  | none => none
  | some row =>
      some { db with
               invoices := db.invoices.map (fun i =>
                 if i.id == iid then
                   { i with paid := if row.paid ≠ 0 then 0 else 1 }
                 else i) }

/-- SQL `SUM(amount)` over the `invoices` table: `NULL` (here `none`) on the
empty table, otherwise the arithmetic sum. -/
def sumAmount : List Invoice → Option ℚ
  | [] => none
  | l => some ((l.map Invoice.amount).sum)

/-- Python `HospitalApp.refresh_admin` (database part): the four `COUNT(*)` values
and `IFNULL(SUM(amount),0)`. -/
def refresh_admin (db : DB) : Nat × Nat × Nat × Nat × ℚ :=
  (db.patients.length, db.appointments.length, db.consultations.length,
   db.invoices.length, (sumAmount db.invoices).getD 0)

/-- The database states reachable from a fresh file by the domain operations
and the paid toggle (`seed_sample_data` only performs the same inserts as
`add_patient` / `add_appointment`, so its states are covered). -/
inductive Reachable : DB → Prop
  | init : Reachable initDB
  | addPatient (first last dob phone notes : String) {db : DB} :
      Reachable db → Reachable (add_patient first last dob phone notes db).2
  | addAppointment (patient_id : Nat) (doctor dt_str reason : String)
      {db : DB} :
      Reachable db → Reachable (add_appointment patient_id doctor dt_str reason db).2
  | addConsultation (appointment_id patient_id : Nat)
      (doctor notes prescription now : String) {db : DB} :
      Reachable db →
      Reachable (add_consultation appointment_id patient_id doctor notes prescription now db).2
  | generateInvoice (patient_id appointment_id : Nat) (amount : ℚ)
      (now : String) {db : DB} :
      Reachable db →
      Reachable (generate_invoice patient_id appointment_id amount now db).2
  | toggleInvoicePaid (iid : Nat) {db db2 : DB} :
      Reachable db → toggle_invoice_paid iid db = some db2 → Reachable db2

/-! ### Helper lemmas and the reachability invariant -/

/-- In a list whose keys are duplicate-free, `find?` on the key of a member
returns exactly that member. -/
theorem find?_key_eq {α : Type} (key : α → Nat) {l : List α}
    (hnodup : (l.map key).Nodup) {x : α} (hmem : x ∈ l) :
    l.find? (fun y => key y == key x) = some x := by
  induction l with
  | nil => cases hmem
  | cons h t ih =>
    rw [List.map_cons, List.nodup_cons] at hnodup
    rcases List.mem_cons.mp hmem with rfl | hmt
    · simp [List.find?]
    · have hne : key h ≠ key x := fun he =>
        hnodup.1 (he ▸ List.mem_map_of_mem key hmt)
      rw [List.find?_cons_of_neg _ (by simpa using hne)]
      exact ih hnodup.2 hmt

/-- In a list whose keys are duplicate-free, two members with the same key
are equal. -/
theorem eq_of_key_eq {α : Type} (key : α → Nat) {l : List α}
    (hnodup : (l.map key).Nodup) {x y : α} (hx : x ∈ l) (hy : y ∈ l)
    (hkey : key x = key y) : x = y := by
  induction l with
  | nil => cases hx
  | cons h t ih =>
    rw [List.map_cons, List.nodup_cons] at hnodup
    rcases List.mem_cons.mp hx with rfl | hxt
    · rcases List.mem_cons.mp hy with rfl | hyt
      · rfl
      · exact absurd (hkey ▸ List.mem_map_of_mem key hyt) hnodup.1
    · rcases List.mem_cons.mp hy with rfl | hyt
      · exact absurd (hkey ▸ List.mem_map_of_mem key hxt) hnodup.1
      · exact ih hnodup.2 hxt hyt

/-- Filtering a duplicate-free-keyed list down to one key keeps one row when
the key occurs and none otherwise. -/
theorem length_filter_key {α : Type} (key : α → Nat) (k : Nat) {l : List α}
    (hnodup : (l.map key).Nodup) :
    (l.filter (fun y => key y == k)).length =
      if l.any (fun y => key y == k) then 1 else 0 := by
  induction l with
  | nil => simp
  | cons h t ih =>
    rw [List.map_cons, List.nodup_cons] at hnodup
    by_cases hh : key h = k
    · have htail : t.filter (fun y => key y == k) = [] := by
        rw [List.filter_eq_nil_iff]
        intro y hy
        simp only [beq_iff_eq]
        intro he
        exact hnodup.1 ((hh.trans he.symm) ▸ List.mem_map_of_mem key hy)
      simp [List.filter_cons, List.any_cons, hh, htail]
    · simp [List.filter_cons, List.any_cons, hh, ih hnodup.2]

/-- Length of a one-join row block: with duplicate-free patient ids the join
keeps exactly the rows whose foreign key matches some patient. -/
theorem length_join {α β : Type} (ps : List Patient)
    (hnodup : (ps.map Patient.id).Nodup) (rows : List α) (key : α → Nat)
    (f : α → Patient → β) :
    (rows.flatMap (fun r =>
        (ps.filter (fun p => p.id == key r)).map (f r))).length =
      (rows.filter (fun r => ps.any (fun p => p.id == key r))).length := by
  induction rows with
  | nil => simp
  | cons r t ih =>
    rw [List.flatMap_cons, List.filter_cons, List.length_append,
      List.length_map, ih]
    have hone := length_filter_key Patient.id (key r) hnodup
    by_cases hany : ps.any (fun p => p.id == key r)
    · simp only [hany, if_true] at hone ⊢
      rw [hone, List.length_cons, Nat.add_comm]
    · simp only [hany, if_false, Bool.false_eq_true] at hone ⊢
      rw [hone]
      simp

/-- The state invariant maintained by every operation: the ids of each table are
bounded by its sequence counter and duplicate-free, and every stored paid
flag is 0 or 1. -/
structure Inv (db : DB) : Prop where
  patients_le : ∀ p ∈ db.patients, p.id ≤ db.patientSeq
  patients_nodup : (db.patients.map Patient.id).Nodup
  invoices_le : ∀ i ∈ db.invoices, i.id ≤ db.invoiceSeq
  invoices_nodup : (db.invoices.map Invoice.id).Nodup
  paid01 : ∀ i ∈ db.invoices, i.paid = 0 ∨ i.paid = 1

theorem inv_initDB : Inv initDB := by
  constructor <;> simp [initDB]

theorem inv_add_patient (first last dob phone notes : String) {db : DB}
    (h : Inv db) : Inv (add_patient first last dob phone notes db).2 := by
  simp only [add_patient]
  constructor
  · intro p hp
    rcases List.mem_append.mp hp with hold | hnew
    · exact Nat.le_succ_of_le (h.patients_le p hold)
    · simp only [List.mem_singleton] at hnew
      simp [hnew]
  · rw [List.map_append, List.nodup_append]
    refine ⟨h.patients_nodup, List.nodup_singleton _, ?_⟩
    rw [List.map_singleton, List.disjoint_singleton]
    intro hmem
    rcases List.mem_map.mp hmem with ⟨p, hp, hid⟩
    exact absurd (hid ▸ h.patients_le p hp) (Nat.not_succ_le_self _)
  · exact h.invoices_le
  · exact h.invoices_nodup
  · exact h.paid01

theorem inv_add_appointment (patient_id : Nat)
    (doctor dt_str reason : String) {db : DB} (h : Inv db) :
    Inv (add_appointment patient_id doctor dt_str reason db).2 := by
  simp only [add_appointment]
  exact ⟨h.patients_le, h.patients_nodup, h.invoices_le, h.invoices_nodup,
    h.paid01⟩

theorem inv_add_consultation (appointment_id patient_id : Nat)
    (doctor notes prescription now : String) {db : DB} (h : Inv db) :
    Inv (add_consultation appointment_id patient_id doctor notes prescription
      now db).2 := by
  simp only [add_consultation]
  exact ⟨h.patients_le, h.patients_nodup, h.invoices_le, h.invoices_nodup,
    h.paid01⟩

theorem inv_generate_invoice (patient_id appointment_id : Nat) (amount : ℚ)
    (now : String) {db : DB} (h : Inv db) :
    Inv (generate_invoice patient_id appointment_id amount now db).2 := by
  simp only [generate_invoice]
  constructor
  · exact h.patients_le
  · exact h.patients_nodup
  · intro i hi
    rcases List.mem_append.mp hi with hold | hnew
    · exact Nat.le_succ_of_le (h.invoices_le i hold)
    · simp only [List.mem_singleton] at hnew
      simp [hnew]
  · rw [List.map_append, List.nodup_append]
    refine ⟨h.invoices_nodup, List.nodup_singleton _, ?_⟩
    rw [List.map_singleton, List.disjoint_singleton]
    intro hmem
    rcases List.mem_map.mp hmem with ⟨i, hi, hid⟩
    exact absurd (hid ▸ h.invoices_le i hi) (Nat.not_succ_le_self _)
  · intro i hi
    rcases List.mem_append.mp hi with hold | hnew
    · exact h.paid01 i hold
    · simp only [List.mem_singleton] at hnew
      simp [hnew]

theorem inv_toggle_invoice_paid {iid : Nat} {db db2 : DB} (h : Inv db)
    (htog : toggle_invoice_paid iid db = some db2) : Inv db2 := by
  unfold toggle_invoice_paid at htog
  cases hfind : db.invoices.find? (fun i => i.id == iid) with
  | none => rw [hfind] at htog; cases htog
  | some row =>
    rw [hfind] at htog
    injection htog with htog
    subst htog
    have hids : (db.invoices.map (fun i =>
        if i.id == iid then { i with paid := if row.paid ≠ 0 then 0 else 1 }
        else i)).map Invoice.id = db.invoices.map Invoice.id := by
      rw [List.map_map]
      apply List.map_congr_left
      intro i _
      by_cases hi : i.id = iid <;> simp [hi]
    constructor
    · exact h.patients_le
    · exact h.patients_nodup
    · intro i hi
      rcases List.mem_map.mp hi with ⟨j, hj, hji⟩
      have : i.id = j.id := by
        subst hji
        by_cases hcase : j.id = iid <;> simp [hcase]
      rw [this]
      exact h.invoices_le j hj
    · simp only [DB.invoices] at hids ⊢
      rw [hids]
      exact h.invoices_nodup
    · intro i hi
      rcases List.mem_map.mp hi with ⟨j, hj, hji⟩
      subst hji
      by_cases hcase : j.id = iid
      · by_cases hpaid : row.paid = 0 <;> simp [hcase, hpaid]
      · simp only [hcase, beq_iff_eq, if_neg hcase]
        exact h.paid01 j hj

/-- Every reachable database state satisfies the invariant. -/
theorem reachable_inv {db : DB} (h : Reachable db) : Inv db := by
  induction h with
  | init => exact inv_initDB
  | addPatient first last dob phone notes _ ih =>
    exact inv_add_patient first last dob phone notes ih
  | addAppointment patient_id doctor dt_str reason _ ih =>
    exact inv_add_appointment patient_id doctor dt_str reason ih
  | addConsultation appointment_id patient_id doctor notes prescription now _ ih =>
    exact inv_add_consultation appointment_id patient_id doctor notes
      prescription now ih
  | generateInvoice patient_id appointment_id amount now _ ih =>
    exact inv_generate_invoice patient_id appointment_id amount now ih
  | toggleInvoicePaid iid _ htog ih =>
    exact inv_toggle_invoice_paid ih htog

/-- Mapping an id-preserving row update leaves the key column unchanged. -/
theorem map_key_map {α : Type} (key : α → Nat) (g : α → α)
    (hg : ∀ x, key (g x) = key x) (l : List α) :
    (l.map g).map key = l.map key := by
  rw [List.map_map]
  exact List.map_congr_left (fun a _ => hg a)

/-- On a table with duplicate-free ids, the paid toggle on the id of a stored
invoice succeeds and rewrites exactly the rows with that id, using the paid
value read from that invoice. -/
theorem toggle_eq_map {db : DB} (hnodup : (db.invoices.map Invoice.id).Nodup)
    {inv : Invoice} (hmem : inv ∈ db.invoices) :
    toggle_invoice_paid inv.id db =
      some { db with invoices := db.invoices.map (fun i =>
        if i.id == inv.id then
          { i with paid := if inv.paid ≠ 0 then 0 else 1 } else i) } := by
  unfold toggle_invoice_paid
  rw [find?_key_eq Invoice.id hnodup hmem]

/-- Toggling the paid flag of a stored invoice twice restores the whole
database state, provided the invariant holds. -/
theorem toggle_toggle_id {db : DB} (hinv : Inv db) {inv : Invoice}
    (hmem : inv ∈ db.invoices) :
    ∃ dbA, toggle_invoice_paid inv.id db = some dbA ∧
      toggle_invoice_paid inv.id dbA = some db := by
  have hnodup := hinv.invoices_nodup
  have hpaid01 := hinv.paid01
  obtain ⟨ps, as, cs, is, q1, q2, q3, q4⟩ := db
  simp only at hnodup hpaid01 hmem
  have h1 := @toggle_eq_map ⟨ps, as, cs, is, q1, q2, q3, q4⟩ hnodup _ hmem
  refine ⟨_, h1, ?_⟩
  have hg1id : ∀ x : Invoice,
      Invoice.id (if x.id == inv.id then
        { x with paid := if inv.paid ≠ 0 then 0 else 1 } else x) = x.id := by
    intro x
    by_cases hx : x.id = inv.id <;> simp [hx]
  have hnodupA : ((is.map (fun i =>
      if i.id == inv.id then
        { i with paid := if inv.paid ≠ 0 then 0 else 1 } else i)).map
        Invoice.id).Nodup := by
    rw [map_key_map Invoice.id _ hg1id]
    exact hnodup
  have hmem1 : (if inv.id == inv.id then
      { inv with paid := if inv.paid ≠ 0 then 0 else 1 } else inv) ∈
      is.map (fun i =>
        if i.id == inv.id then
          { i with paid := if inv.paid ≠ 0 then 0 else 1 } else i) :=
    List.mem_map_of_mem _ hmem
  have h2 := @toggle_eq_map
    ⟨ps, as, cs, is.map (fun i =>
      if i.id == inv.id then
        { i with paid := if inv.paid ≠ 0 then 0 else 1 } else i),
      q1, q2, q3, q4⟩ hnodupA _ hmem1
  have hid1 : Invoice.id (if inv.id == inv.id then
      { inv with paid := if inv.paid ≠ 0 then 0 else 1 } else inv) =
      inv.id := hg1id inv
  rw [hid1] at h2
  rw [h2]
  have hmapeq : (is.map (fun i =>
      if i.id == inv.id then
        { i with paid := if inv.paid ≠ 0 then 0 else 1 } else i)).map
      (fun i => if i.id == inv.id then
        { i with paid :=
            if Invoice.paid (if inv.id == inv.id then
              { inv with paid := if inv.paid ≠ 0 then 0 else 1 } else inv)
              ≠ 0 then 0 else 1 }
        else i) = is := by
    rw [List.map_map]
    have hstep : ∀ x ∈ is, ((fun i => if i.id == inv.id then
        { i with paid :=
            if Invoice.paid (if inv.id == inv.id then
              { inv with paid := if inv.paid ≠ 0 then 0 else 1 } else inv)
              ≠ 0 then 0 else 1 }
        else i) ∘ (fun i => if i.id == inv.id then
        { i with paid := if inv.paid ≠ 0 then 0 else 1 } else i)) x = id x := by
      intro x hx
      by_cases hxid : x.id = inv.id
      · have hxinv : x = inv := eq_of_key_eq Invoice.id hnodup hx hmem hxid
        subst hxinv
        rcases hpaid01 x hx with h0 | h1
        · obtain ⟨i0, p0, a0, m0, s0, pd0⟩ := x
          simp only [Invoice.paid] at h0
          subst h0
          simp
        · obtain ⟨i0, p0, a0, m0, s0, pd0⟩ := x
          simp only [Invoice.paid] at h1
          subst h1
          simp
      · simp [Function.comp, hxid]
    rw [List.map_congr_left hstep, List.map_id]
  rw [hmapeq]

/-! ### Concrete sample states used by the witnesses -/

/-- One patient (id 1). -/
def dbP : DB :=
  (add_patient "Alice" "Wong" "1985-04-12" "+441234567890" "" initDB).2

/-- One patient, one appointment (id 1, scheduled). -/
def dbPA : DB :=
  (add_appointment 1 "Dr. Patel" "2025-01-01T10:00" "Routine checkup" dbP).2

/-- One patient, two appointments (ids 1 and 2, both scheduled). -/
def dbPAA : DB :=
  (add_appointment 1 "Dr. Jones" "2025-01-02T10:00" "Follow-up" dbPA).2

/-- One patient, one appointment, one invoice (id 1, unpaid, amount 75). -/
def dbPAI : DB :=
  (generate_invoice 1 1 75 "2025-01-03T10:00" dbPA).2

theorem reachable_dbP : Reachable dbP :=
  Reachable.addPatient _ _ _ _ _ Reachable.init

theorem reachable_dbPA : Reachable dbPA :=
  Reachable.addAppointment _ _ _ _ reachable_dbP

theorem reachable_dbPAA : Reachable dbPAA :=
  Reachable.addAppointment _ _ _ _ reachable_dbPA

theorem reachable_dbPAI : Reachable dbPAI :=
  Reachable.generateInvoice _ _ _ _ reachable_dbPA

/-! ### Claims -/

/-- C1: for every state and arguments, `add_consultation` returns the id of
the consultation row it just inserted — the state after the call stores
exactly the old consultations plus one new row whose `id` field is the
returned value. -/
theorem add_consultation_returns_inserted_id
    (appointment_id patient_id : Nat)
    (doctor notes prescription now : String) (db : DB) :
    (add_consultation appointment_id patient_id doctor notes prescription
        now db).2.consultations =
      db.consultations ++
        [{ id := (add_consultation appointment_id patient_id doctor notes
              prescription now db).1,
           appointment_id := appointment_id, patient_id := patient_id
           doctor := doctor, notes := notes, prescription := prescription
           created_at := now }] := rfl

/-- C2: after `add_consultation` on an appointment id present in the store,
the status of that appointment is `"completed"`, unconditionally: some row with
that id is stored with status `"completed"`, and every stored row with that
id has status `"completed"`, whatever the prior status was. -/
theorem add_consultation_completes_appointment
    (patient_id : Nat) (doctor notes prescription now : String) {db : DB}
    {a : Appointment} (ha : a ∈ db.appointments) :
    (∃ b ∈ (add_consultation a.id patient_id doctor notes prescription now
        db).2.appointments, b.id = a.id ∧ b.status = "completed") ∧
    (∀ b ∈ (add_consultation a.id patient_id doctor notes prescription now
        db).2.appointments, b.id = a.id → b.status = "completed") := by
  constructor
  · refine ⟨{ a with status := "completed" }, ?_, rfl, rfl⟩
    simp only [add_consultation]
    have : (if a.id == a.id then { a with status := "completed" } else a) =
        { a with status := "completed" } := by simp
    exact this ▸ List.mem_map_of_mem _ ha
  · intro b hb hbid
    simp only [add_consultation] at hb
    rcases List.mem_map.mp hb with ⟨c, _, hcb⟩
    by_cases hc : c.id = a.id
    · rw [← hcb]
      simp [hc]
    · exfalso
      rw [← hcb] at hbid
      simp only [if_neg, beq_iff_eq, hc, if_false] at hbid

/-- C2 witness: on the concrete two-appointment state, recording a
consultation against appointment 1 marks it completed. -/
theorem add_consultation_completes_appointment_witness :
    (∃ b ∈ (add_consultation 1 1 "Dr. Patel" "n" "rx" "2025-01-05"
        dbPAA).2.appointments, b.id = 1 ∧ b.status = "completed") ∧
    (∀ b ∈ (add_consultation 1 1 "Dr. Patel" "n" "rx" "2025-01-05"
        dbPAA).2.appointments, b.id = 1 → b.status = "completed") :=
  add_consultation_completes_appointment 1 "Dr. Patel" "n" "rx" "2025-01-05"
    (a := { id := 1, patient_id := 1, doctor := "Dr. Patel"
            datetime := "2025-01-01T10:00", reason := "Routine checkup"
            status := "scheduled" })
    (by decide)

/-- C3: `add_consultation` leaves the patient and invoice tables unchanged,
keeps the length of the appointment table, and every stored appointment whose id
differs from the target keeps its exact row (same position, same fields,
in particular the same status). -/
theorem add_consultation_frame (appointment_id patient_id : Nat)
    (doctor notes prescription now : String) (db : DB) :
    (add_consultation appointment_id patient_id doctor notes prescription
        now db).2.patients = db.patients ∧
    (add_consultation appointment_id patient_id doctor notes prescription
        now db).2.invoices = db.invoices ∧
    (add_consultation appointment_id patient_id doctor notes prescription
        now db).2.appointments.length = db.appointments.length ∧
    ∀ (i : Nat) (b : Appointment), db.appointments[i]? = some b →
      b.id ≠ appointment_id →
      (add_consultation appointment_id patient_id doctor notes prescription
          now db).2.appointments[i]? = some b := by
  refine ⟨rfl, rfl, by simp [add_consultation], ?_⟩
  intro i b hib hbne
  simp only [add_consultation, List.getElem?_map, hib, Option.map_some]
  simp [hbne]

/-- C3 witness: consulting appointment 1 in the two-appointment state leaves
appointment 2 (at index 1) untouched. -/
theorem add_consultation_frame_witness :
    (add_consultation 1 1 "d" "n" "rx" "t" dbPAA).2.appointments[1]? =
      some { id := 2, patient_id := 1, doctor := "Dr. Jones"
             datetime := "2025-01-02T10:00", reason := "Follow-up"
             status := "scheduled" } :=
  (add_consultation_frame 1 1 "d" "n" "rx" "t" dbPAA).2.2.2 1
    { id := 2, patient_id := 1, doctor := "Dr. Jones"
      datetime := "2025-01-02T10:00", reason := "Follow-up"
      status := "scheduled" } (by decide) (by decide)

/-- A single toggle on the id of a stored invoice succeeds, writes the
flipped value of the read paid flag into every row with that id, and keeps
the id column duplicate-free; the updated row is stored. -/
theorem toggle_writes {db : DB} (hnodup : (db.invoices.map Invoice.id).Nodup)
    {inv : Invoice} (hmem : inv ∈ db.invoices) :
    ∃ dbA, toggle_invoice_paid inv.id db = some dbA ∧
      (∀ i ∈ dbA.invoices, i.id = inv.id →
        i.paid = if inv.paid ≠ 0 then 0 else 1) ∧
      (dbA.invoices.map Invoice.id).Nodup ∧
      { inv with paid := if inv.paid ≠ 0 then 0 else 1 } ∈ dbA.invoices := by
  have h1 := toggle_eq_map hnodup hmem
  refine ⟨_, h1, ?_, ?_, ?_⟩
  · intro i hi hid
    simp only at hi
    rcases List.mem_map.mp hi with ⟨j, _, hji⟩
    by_cases hj : j.id = inv.id
    · rw [← hji]
      simp [hj]
    · exfalso
      rw [← hji] at hid
      simp only [beq_iff_eq, hj, if_false] at hid
  · simp only
    rw [map_key_map Invoice.id _ (fun x => by
      by_cases hx : x.id = inv.id <;> simp [hx])]
    exact hnodup
  · simp only
    have : (if inv.id == inv.id then
        { inv with paid := if inv.paid ≠ 0 then 0 else 1 } else inv) =
        { inv with paid := if inv.paid ≠ 0 then 0 else 1 } := by simp
    exact this ▸ List.mem_map_of_mem _ hmem

/-- C4: a newly generated invoice is stored with paid = 0; toggling its id
once makes every row with that id carry paid = 1 and toggling again makes it
paid = 0; and for every invoice id present in a reachable state, two toggles
restore the database exactly. -/
theorem generate_invoice_paid_toggle
    (patient_id appointment_id : Nat) (amount : ℚ) (now : String) {db : DB}
    (hdb : Reachable db) {iid : Nat} {db2 : DB}
    (hr : generate_invoice patient_id appointment_id amount now db =
      (iid, db2)) :
    (db2.invoices = db.invoices ++
       [{ id := iid, patient_id := patient_id
          appointment_id := appointment_id, amount := amount
          issued_at := now, paid := 0 }]) ∧
    (∃ dbA, toggle_invoice_paid iid db2 = some dbA ∧
       (∀ i ∈ dbA.invoices, i.id = iid → i.paid = 1) ∧
       ∃ dbB, toggle_invoice_paid iid dbA = some dbB ∧
         ∀ i ∈ dbB.invoices, i.id = iid → i.paid = 0) ∧
    (∀ inv ∈ db.invoices, ∃ dbA dbB,
       toggle_invoice_paid inv.id db = some dbA ∧
       toggle_invoice_paid inv.id dbA = some dbB ∧ dbB = db) := by
  have hinv := reachable_inv hdb
  have hinv2 : Inv db2 := by
    have := inv_generate_invoice patient_id appointment_id amount now hinv
    rw [hr] at this
    exact this
  injection hr with hiid hdb2
  subst hiid
  subst hdb2
  refine ⟨rfl, ?_, ?_⟩
  · -- the freshly inserted invoice, toggled once and then twice
    have hmemf : ({ id := db.invoiceSeq + 1, patient_id := patient_id, appointment_id := appointment_id, amount := amount, issued_at := now, paid := 0 } : Invoice) ∈ (generate_invoice patient_id appointment_id amount now db).2.invoices := by
      simp [generate_invoice]
    obtain ⟨dbA, htogA, hpaidA, hnodupA, hmemA⟩ :=
      toggle_writes hinv2.invoices_nodup hmemf
    refine ⟨dbA, htogA, ?_, ?_⟩
    · intro i hi hid
      have := hpaidA i hi hid
      simpa using this
    · obtain ⟨dbB, htogB, hpaidB, _, _⟩ := toggle_writes hnodupA hmemA
      refine ⟨dbB, htogB, ?_⟩
      intro i hi hid
      have := hpaidB i hi hid
      simpa using this
  · intro inv hmem
    obtain ⟨dbA, h1, h2⟩ := toggle_toggle_id hinv hmem
    exact ⟨dbA, db, h1, h2, rfl⟩

/-- C4 witness: generating invoice 2 for amount 50 on the concrete
one-invoice state stores it with paid = 0. -/
theorem generate_invoice_paid_toggle_witness :
    (generate_invoice 1 1 50 "2025-02-01" dbPAI).2.invoices =
      dbPAI.invoices ++
        [{ id := 2, patient_id := 1, appointment_id := 1, amount := 50
           issued_at := "2025-02-01", paid := 0 }] := by
  have h :=
    (generate_invoice_paid_toggle 1 1 50 "2025-02-01" reachable_dbPAI rfl).1
  exact h

/-- C5: the invoice sum of the dashboard aggregate is the arithmetic sum of all
stored invoice amounts, and it is exactly 0 when no invoices exist. -/
theorem dashboard_invoice_sum (db : DB) :
    (refresh_admin db).2.2.2.2 = (db.invoices.map Invoice.amount).sum ∧
    (db.invoices = [] → (refresh_admin db).2.2.2.2 = 0) := by
  constructor
  · cases h : db.invoices with
    | nil => simp [refresh_admin, sumAmount, h]
    | cons x xs => simp [refresh_admin, sumAmount, h]
  · intro h
    simp [refresh_admin, sumAmount, h]

/-- C5 witness: the empty store reports invoice revenue exactly 0. -/
theorem dashboard_invoice_sum_witness : (refresh_admin initDB).2.2.2.2 = 0 :=
  (dashboard_invoice_sum initDB).2 rfl

/-- C6: `get_patient` returns the full stored record (notes included) of a
matching patient when one exists, and the absent value `none` — not an
error — when no stored patient has the requested id. -/
theorem get_patient_spec (pid : Nat) (db : DB) :
    ((∃ p ∈ db.patients, p.id = pid) →
       ∃ p ∈ db.patients, p.id = pid ∧
         get_patient pid db =
           some (p.id, p.first_name, p.last_name, p.dob, p.phone, p.notes)) ∧
    ((∀ p ∈ db.patients, p.id ≠ pid) → get_patient pid db = none) := by
  constructor
  · rintro ⟨p, hp, hpid⟩
    cases hf : db.patients.find? (fun q => q.id == pid) with
    | none =>
      exfalso
      have := List.find?_eq_none.mp hf p hp
      simp [hpid] at this
    | some q =>
      refine ⟨q, List.mem_of_find?_eq_some hf, ?_, ?_⟩
      · have := List.find?_some hf
        simpa using this
      · simp [get_patient, hf]
  · intro h
    have hf : db.patients.find? (fun q => q.id == pid) = none :=
      List.find?_eq_none.mpr (fun x hx => by simpa using h x hx)
    simp [get_patient, hf]

/-- C6 witness: an id never inserted yields the absent value. -/
theorem get_patient_spec_witness : get_patient 99 dbP = none :=
  (get_patient_spec 99 dbP).2 (by decide)

/-- Sorting by descending id puts an appended row whose id strictly exceeds
every other id at the head. -/
theorem insertionSort_append_max {l : List Patient} {new : Patient}
    (hlt : ∀ p ∈ l, p.id < new.id) :
    (List.insertionSort (fun a b : Patient => b.id ≤ a.id)
      (l ++ [new])).head? = some new := by
  haveI : IsTotal Patient (fun a b : Patient => b.id ≤ a.id) :=
    ⟨fun a b => Nat.le_total b.id a.id⟩
  haveI : IsTrans Patient (fun a b : Patient => b.id ≤ a.id) :=
    ⟨fun a b c h1 h2 => Nat.le_trans h2 h1⟩
  have hperm := List.perm_insertionSort
    (fun a b : Patient => b.id ≤ a.id) (l ++ [new])
  have hsorted := List.sorted_insertionSort
    (fun a b : Patient => b.id ≤ a.id) (l ++ [new])
  cases hL : List.insertionSort (fun a b : Patient => b.id ≤ a.id)
      (l ++ [new]) with
  | nil =>
    exfalso
    have hmemnew : new ∈ List.insertionSort
        (fun a b : Patient => b.id ≤ a.id) (l ++ [new]) :=
      hperm.mem_iff.mpr (by simp)
    rw [hL] at hmemnew
    cases hmemnew
  | cons h t =>
    rw [hL] at hperm hsorted
    have hmemnew : new ∈ h :: t := hperm.mem_iff.mpr (by simp)
    have hh : h ∈ l ++ [new] := hperm.mem_iff.mp (List.mem_cons_self h t)
    have hhnew : h = new := by
      rcases List.mem_append.mp hh with hold | hnew2
      · exfalso
        have hhid : h.id < new.id := hlt h hold
        rcases List.mem_cons.mp hmemnew with heq | hmt
        · rw [heq] at hhid
          exact Nat.lt_irrefl _ hhid
        · have hle := (List.sorted_cons.mp hsorted).1 new hmt
          exact absurd hhid (Nat.not_lt.mpr hle)
      · simpa using hnew2
    rw [hhnew]
    rfl

/-- C7: `list_patients` returns the projections of all stored patients,
ordered by id descending; in particular right after an `add_patient` the
newly added patient (which holds the largest id) is the head of the
sequence. -/
theorem list_patients_spec {db : DB} (hdb : Reachable db) :
    (list_patients db).Perm (db.patients.map patientListRow) ∧
    List.Sorted (fun x y : Nat × String × String × String × String =>
      y.1 ≤ x.1) (list_patients db) ∧
    ∀ first last dob phone notes : String,
      (list_patients (add_patient first last dob phone notes db).2).head? =
        some ((add_patient first last dob phone notes db).1,
          first, last, dob, phone) := by
  haveI : IsTotal Patient (fun a b : Patient => b.id ≤ a.id) :=
    ⟨fun a b => Nat.le_total b.id a.id⟩
  haveI : IsTrans Patient (fun a b : Patient => b.id ≤ a.id) :=
    ⟨fun a b c h1 h2 => Nat.le_trans h2 h1⟩
  refine ⟨?_, ?_, ?_⟩
  · exact List.Perm.map patientListRow
      (List.perm_insertionSort (fun a b : Patient => b.id ≤ a.id) db.patients)
  · exact List.Pairwise.map patientListRow (fun a b h => h)
      (List.sorted_insertionSort (fun a b : Patient => b.id ≤ a.id)
        db.patients)
  · intro f2 l2 d2 p2 n2
    have hhead := @insertionSort_append_max db.patients
      { id := db.patientSeq + 1, first_name := f2, last_name := l2, dob := d2, phone := p2, notes := n2 }
      (fun p hp =>
        Nat.lt_succ_of_le ((reachable_inv hdb).patients_le p hp))
    simp only [list_patients, add_patient, List.head?_map]
    rw [hhead]
    rfl

/-- C7 witness: on the empty store, after adding one patient the listing
starts with that patient (id 1). -/
theorem list_patients_spec_witness :
    (list_patients (add_patient "Alice" "Wong" "1985-04-12" "+441234567890"
        "" initDB).2).head? =
      some ((add_patient "Alice" "Wong" "1985-04-12" "+441234567890"
        "" initDB).1, "Alice", "Wong", "1985-04-12", "+441234567890") :=
  (list_patients_spec Reachable.init).2.2 "Alice" "Wong" "1985-04-12"
    "+441234567890" ""

/-- C8: with non-empty names, `add_patient` returns an id strictly greater
than every patient id already stored, and any next call returns a strictly
greater id still — ids are never reused. -/
theorem add_patient_fresh_id (first last dob phone notes : String) {db : DB}
    (hdb : Reachable db) (hfirst : first ≠ "") (hlast : last ≠ "") :
    (∀ p ∈ db.patients,
      p.id < (add_patient first last dob phone notes db).1) ∧
    ∀ f2 l2 d2 p2 n2 : String,
      (add_patient first last dob phone notes db).1 <
        (add_patient f2 l2 d2 p2 n2
          (add_patient first last dob phone notes db).2).1 := by
  constructor
  · intro p hp
    exact Nat.lt_succ_of_le ((reachable_inv hdb).patients_le p hp)
  · intro _ _ _ _ _
    exact Nat.lt_succ_self _

/-- C8 witness: on the one-patient store the second and third added patients
receive ids 2 then 3. -/
theorem add_patient_fresh_id_witness :
    (add_patient "Bob" "Smith" "1990-11-03" "+447700900123" "" dbP).1 <
      (add_patient "Carol" "Diaz" "1991-01-01" "+10000000000" ""
        (add_patient "Bob" "Smith" "1990-11-03" "+447700900123" ""
          dbP).2).1 :=
  (add_patient_fresh_id "Bob" "Smith" "1990-11-03" "+447700900123" ""
      reachable_dbP (by decide) (by decide)).2
    "Carol" "Diaz" "1991-01-01" "+10000000000" ""

/-- C9: in every reachable state, the paid flag of every stored invoice is
exactly 0 or 1. -/
theorem invoices_paid_zero_or_one {db : DB} (hdb : Reachable db) :
    ∀ i ∈ db.invoices, i.paid = 0 ∨ i.paid = 1 :=
  (reachable_inv hdb).paid01

/-- C9 witness: the invoice stored in the concrete reachable state has paid
flag 0 or 1. -/
theorem invoices_paid_zero_or_one_witness :
    ({ id := 1, patient_id := 1, appointment_id := 1, amount := 75, issued_at := "2025-01-03T10:00", paid := 0 } : Invoice) ∈ dbPAI.invoices ∧
    (({ id := 1, patient_id := 1, appointment_id := 1, amount := 75, issued_at := "2025-01-03T10:00", paid := 0 } : Invoice).paid = 0 ∨
     ({ id := 1, patient_id := 1, appointment_id := 1, amount := 75, issued_at := "2025-01-03T10:00", paid := 0 } : Invoice).paid = 1) :=
  ⟨by decide, invoices_paid_zero_or_one reachable_dbPAI _ (by decide)⟩

/-- C10: each listing inner-joins to the patients table, so rows whose
patient id matches no stored patient are omitted while rows with a match
appear exactly once (patient ids are duplicate-free in reachable states);
the dashboard aggregate counts all stored rows regardless; and when every
row references a stored patient each listing has one row per stored row. -/
theorem listings_join_spec {db : DB} (hdb : Reachable db) :
    ((list_appointments db).length = (db.appointments.filter
      (fun a => db.patients.any (fun p => p.id == a.patient_id))).length) ∧
    ((list_consultations db).length = (db.consultations.filter
      (fun c => db.patients.any (fun p => p.id == c.patient_id))).length) ∧
    ((list_invoices db).length = (db.invoices.filter
      (fun i => db.patients.any (fun p => p.id == i.patient_id))).length) ∧
    ((refresh_admin db).2.1 = db.appointments.length ∧
     (refresh_admin db).2.2.1 = db.consultations.length ∧
     (refresh_admin db).2.2.2.1 = db.invoices.length) ∧
    ((∀ a ∈ db.appointments, ∃ p ∈ db.patients, p.id = a.patient_id) →
      (list_appointments db).length = db.appointments.length) ∧
    ((∀ c ∈ db.consultations, ∃ p ∈ db.patients, p.id = c.patient_id) →
      (list_consultations db).length = db.consultations.length) ∧
    ((∀ i ∈ db.invoices, ∃ p ∈ db.patients, p.id = i.patient_id) →
      (list_invoices db).length = db.invoices.length) := by
  have hnodup := (reachable_inv hdb).patients_nodup
  have hA : (list_appointments db).length = (db.appointments.filter
      (fun a => db.patients.any (fun p => p.id == a.patient_id))).length := by
    simp only [list_appointments]
    rw [List.length_map, (List.perm_insertionSort _ _).length_eq]
    exact length_join db.patients hnodup db.appointments
      Appointment.patient_id (fun a p => (a, p))
  have hC : (list_consultations db).length = (db.consultations.filter
      (fun c => db.patients.any (fun p => p.id == c.patient_id))).length := by
    simp only [list_consultations]
    rw [List.length_map, (List.perm_insertionSort _ _).length_eq]
    exact length_join db.patients hnodup db.consultations
      Consultation.patient_id (fun c p => (c, p))
  have hI : (list_invoices db).length = (db.invoices.filter
      (fun i => db.patients.any (fun p => p.id == i.patient_id))).length := by
    simp only [list_invoices]
    rw [List.length_map, (List.perm_insertionSort _ _).length_eq]
    exact length_join db.patients hnodup db.invoices
      Invoice.patient_id (fun i p => (i, p))
  refine ⟨hA, hC, hI, ⟨rfl, rfl, rfl⟩, ?_, ?_, ?_⟩
  · intro h
    rw [hA, List.filter_eq_self.mpr]
    intro a ha
    rcases h a ha with ⟨p, hp, hpid⟩
    exact List.any_eq_true.mpr ⟨p, hp, by simpa using hpid⟩
  · intro h
    rw [hC, List.filter_eq_self.mpr]
    intro c hc
    rcases h c hc with ⟨p, hp, hpid⟩
    exact List.any_eq_true.mpr ⟨p, hp, by simpa using hpid⟩
  · intro h
    rw [hI, List.filter_eq_self.mpr]
    intro i hi
    rcases h i hi with ⟨p, hp, hpid⟩
    exact List.any_eq_true.mpr ⟨p, hp, by simpa using hpid⟩

/-- C10 witness: in the concrete one-patient one-appointment state every
appointment references a stored patient and the listing has one row per
stored appointment. -/
theorem listings_join_spec_witness :
    (list_appointments dbPA).length = dbPA.appointments.length :=
  (listings_join_spec reachable_dbPA).2.2.2.2.1 (by decide)

end HospitalMVP
  
